import Mathlib

/-! Verification development for the VLookup web application core:
the character-level CSV parser, the spreadsheet row normalizer, the
single-key left-join (VLOOKUP) engine, the CSV serializer, and the
source dispatcher. Cells are text end to end, as the data model fixes
(`types.ts` declares rows of untyped cells, and every parser coerces
cells to strings), so rows are modelled as lists of strings. -/

namespace Vlookup

/-- The canonical rectangular table shape shared by the whole pipeline
(`types.ts`): header names plus rows of text cells. -/
structure TableData where
  headers : List String
  rows : List (List String)
deriving DecidableEq

/-- Rectangularity invariant: every row is exactly as wide as the header
list. -/
def Rect (t : TableData) : Prop :=
  ∀ row ∈ t.rows, row.length = t.headers.length

instance (t : TableData) : Decidable (Rect t) := by
  unfold Rect
  infer_instance

/-- Characters removed by the JavaScript trim call (the JS whitespace
set, which is larger than the ASCII one). -/
def isJsWhitespace (c : Char) : Bool :=
  c = ' ' || c = '\t' || c = '\n' || c = '\r' || c = '\x0B' || c = '\x0C' ||
    c = '\u00A0' || c = '\u1680' || ('\u2000' ≤ c && c ≤ '\u200A') ||
    c = '\u2028' || c = '\u2029' || c = '\u202F' || c = '\u205F' ||
    c = '\u3000' || c = '\uFEFF'

/-- Model of the JavaScript trim call: strip JS whitespace from both
ends of a string. -/
def jsTrim (s : String) : String :=
  String.mk (((s.data.dropWhile isJsWhitespace).reverse.dropWhile isJsWhitespace).reverse)

/-- Scanner state of the character-by-character CSV parser
(`parseCsv` in csvService): accumulated rows, the row being built, the
field being built, and the quoted-field flag. -/
structure CsvState where
  rows : List (List String)
  currentRow : List String
  currentField : List Char
  inQuotedField : Bool
deriving DecidableEq

/-- The single left-to-right scan of `parseCsv` (its for loop over
`csvText`). The `prev` argument carries the previously consumed raw
character, modelling the lookback `csvText[i-1]` used by the row-break
rule (at the first character it is `none`, modelling the `i > 0`
guard); the two-quote case models the `csvText[i+1]` lookahead that
skips the second quote of an escaped pair. -/
def csvScan : List Char → Option Char → CsvState → CsvState
  | [], _, st => st
  | c :: rest, prev, st =>
    if st.inQuotedField then
      if c = '"' then
        match rest with
        | '"' :: rest2 =>
          csvScan rest2 (some '"')
            { st with currentField := st.currentField ++ ['"'] }
        | [] => { st with inQuotedField := false }
        | c2 :: rest2 => csvScan (c2 :: rest2) (some '"') { st with inQuotedField := false }
      else csvScan rest (some c) { st with currentField := st.currentField ++ [c] }
    else if c = '"' then
      csvScan rest (some '"') { st with inQuotedField := true }
    else if c = ',' then
      csvScan rest (some ',')
        { st with currentRow := st.currentRow ++ [String.mk st.currentField],
                  currentField := [] }
    else if c = '\n' ∨ c = '\r' then
      match prev with
      | some p =>
        if p ≠ '\r' ∧ p ≠ '\n' then
          csvScan rest (some c)
            { st with rows := st.rows ++ [st.currentRow ++ [String.mk st.currentField]],
                      currentRow := [], currentField := [] }
        else csvScan rest (some c) st
      | none => csvScan rest (some c) st
    else csvScan rest (some c) { st with currentField := st.currentField ++ [c] }

/-- The post-scan empty-row filter of `parseCsv`: keep rows with more
than one field, or a single field whose trimmed content is non-empty. -/
def keepRow (row : List String) : Bool :=
  decide (row.length > 1) ||
    (decide (row.length = 1) && decide (jsTrim (row.getD 0 "") ≠ ""))

/-- Row-width reconciliation in `parseCsv`: slice rows longer than the
header list, pad shorter rows with empty-string cells. -/
def sanitizeRowCsv (headers : List String) (row : List String) : List String :=
  if row.length > headers.length then row.take headers.length
  else row ++ List.replicate (headers.length - row.length) ""

/-- The scanned row list of `parseCsv` (the `rows` local after the
loop): the scan result with the trailing field and row flushed when
the field is a non-empty, hence truthy, string or the row has
fields. -/
def scanRows (csvText : String) : List (List String) :=
  let st := csvScan csvText.data none ⟨[], [], [], false⟩
  if st.currentField ≠ [] ∨ st.currentRow.length > 0 then
    st.rows ++ [st.currentRow ++ [String.mk st.currentField]]
  else st.rows

/-- The CSV parser (`parseCsv` in csvService). The JS promise always
resolves (its body cannot throw), so it is modelled as a total
function: scan, flush the trailing field and row when present, filter
empty rows, split headers from data rows, reconcile row widths. -/
def parseCsv (csvText : String) : TableData :=
  match (scanRows csvText).filter keepRow with
  | [] => ⟨[], []⟩
  | headers :: dataRows => ⟨headers, dataRows.map (sanitizeRowCsv headers)⟩

/-- Join a list of character lists with a separator character (the JS
Array join used by `generateCsv`). -/
def joinWith (sep : Char) : List (List Char) → List Char
  | [] => []
  | [x] => x
  | x :: y :: ys => x ++ sep :: joinWith sep (y :: ys)

/-- Characters that force a serialized field to be quoted (the regex
character class of comma, quote, line feed, carriage return). -/
def isSpecialChar (c : Char) : Bool := c = '"' || c = ',' || c = '\n' || c = '\r'

/-- Double every double quote (the global replace of one quote by two
inside a quoted field). -/
def doubleQuotes : List Char → List Char
  | [] => []
  | c :: cs => if c = '"' then '"' :: '"' :: doubleQuotes cs else c :: doubleQuotes cs

/-- Per-cell escaping of `generateCsv`: when the field contains a
comma, quote, or line break, wrap it in quotes and double internal
quotes; otherwise emit it verbatim. Cells are strings here, so the
null coercion of the source is the identity. -/
def escapeField (s : String) : String :=
  if s.data.any isSpecialChar then String.mk ('"' :: doubleQuotes s.data ++ ['"'])
  else s

/-- One serialized row of `generateCsv`: escaped fields joined with
commas. -/
def lineOf (row : List String) : List Char :=
  joinWith ',' (row.map (fun f => (escapeField f).data))

/-- The CSV serializer (`generateCsv`): header row first, then data
rows, joined with a single line feed. -/
def generateCsv (t : TableData) : String :=
  String.mk (joinWith '\n' (lineOf t.headers :: t.rows.map lineOf))

/-- Row-width reconciliation in `parseExcel`: a fresh row of
`headers.length` empty strings, each position below the header width
overwritten by the corresponding cell. String cells are already their
own string coercion, and null or undefined cells do not occur in a
string-valued sheet, so position `i` holds the cell at `i` when the
source row has one and the empty string otherwise. -/
def sanitizeRowExcel (headers : List String) (row : List String) : List String :=
  (List.range headers.length).map (fun i => row.getD i "")

/-- The spreadsheet normalizer (`parseExcel`) after the external xlsx
library has decoded the workbook: the first sheet arrives as rows of
cells (modelled string-valued, as the library output is coerced with
the String constructor). Rows whose cells all trim to empty are
filtered out; the first survivor becomes the headers (the falsy-header
coercion is the identity on strings); the rest are width-reconciled.
An empty sheet yields the empty table, exactly as the early returns
do. -/
def parseExcelRows (sheetRows : List (List String)) : TableData :=
  let nonEmptyRows := sheetRows.filter (fun row => row.any (fun cell => !(jsTrim cell).isEmpty))
  match nonEmptyRows with
  | [] => ⟨[], []⟩
  | headerRow :: dataRows => ⟨headerRow, dataRows.map (sanitizeRowExcel headerRow)⟩

/-- The JS Array indexOf on the header list: index of the first
occurrence, or minus one when absent. -/
def indexOfAux (x : String) : List String → Option Nat
  | [] => none
  | y :: ys => if y = x then some 0 else (indexOfAux x ys).map (· + 1)

/-- Resolution of a column name to its index in `handlePerformVlookup`
(`headers.indexOf(column)`): first matching index, minus one when the
name is absent. -/
def jsIndexOf (l : List String) (x : String) : Int :=
  match indexOfAux x l with
  | some n => (n : Int)
  | none => -1

/-- JS array subscripting with a possibly negative index: `row[i]` is
the cell when `i` is a valid index and undefined (here `none`)
otherwise. -/
def jsAt (row : List String) (i : Int) : Option String :=
  if 0 ≤ i then row.get? i.toNat else none

/-- The JS String constructor applied to a cell or to undefined (the
stringification `String(row[idx])` in `handlePerformVlookup`). -/
def jsString (v : Option String) : String :=
  match v with
  | some s => s
  | none => "undefined"

/-- One `Map.set` call: overwrite the entry with this key when one
exists (later rows overwrite earlier ones), append otherwise. -/
def mapSet (m : List (String × List String)) (k : String) (v : List String) :
    List (String × List String) :=
  if m.any (fun p => p.1 = k) then m.map (fun p => if p.1 = k then (k, v) else p)
  else m ++ [(k, v)]

/-- One `Map.get` call: the value stored under this exact string key. -/
def mapGet (m : List (String × List String)) (k : String) : Option (List String) :=
  (m.find? (fun p => p.1 = k)).map (fun p => p.2)

/-- The lookup index built from the right table in
`handlePerformVlookup`: one `Map.set` per right row, keyed by the
stringified match-column cell. -/
def buildLookupMap (rows : List (List String)) (matchColumnIndex : Int) :
    List (String × List String) :=
  rows.foldl (fun m row => mapSet m (jsString (jsAt row matchColumnIndex)) row) []

/-- The join computation of `handlePerformVlookup` (the body of its
deferred block): resolve the three column indices, build the lookup
map from table B, then extend every row of table A with the matched
return cell or the sentinel text. The JS code appends the raw matched
cell; with string cells that raw cell is its own stringification (an
out-of-range return index would append undefined, modelled by its
stringification, a case excluded by the rectangularity invariant). -/
def vlookupJoin (tableA tableB : TableData)
    (lookupColumn matchColumn returnColumn : String) : TableData :=
  let matchColumnIndex := jsIndexOf tableB.headers matchColumn
  let returnColumnIndex := jsIndexOf tableB.headers returnColumn
  let lookupMap := buildLookupMap tableB.rows matchColumnIndex
  let newHeaders := tableA.headers ++ [returnColumn]
  let lookupColumnIndex := jsIndexOf tableA.headers lookupColumn
  let newRows := tableA.rows.map (fun rowA =>
    let lookupValue := jsString (jsAt rowA lookupColumnIndex)
    let matchedRowB := mapGet lookupMap lookupValue
    let returnValue :=
      match matchedRowB with
      | some rowB => jsString (jsAt rowB returnColumnIndex)
      | none => "N/A"
    rowA ++ [returnValue])
  ⟨newHeaders, newRows⟩

/-- The guard message of `handlePerformVlookup`. -/
def vlookupGuardMsg : String :=
  "Please ensure both tables are loaded and all columns are selected."

/-- The join engine entry point (`handlePerformVlookup`): both tables
are present by typing; the guard additionally rejects empty column
selections and nothing else, then the join computation runs. -/
def handlePerformVlookup (tableA tableB : TableData)
    (lookupColumn matchColumn returnColumn : String) : Except String TableData :=
  if lookupColumn = "" ∨ matchColumn = "" ∨ returnColumn = "" then
    Except.error vlookupGuardMsg
  else Except.ok (vlookupJoin tableA tableB lookupColumn matchColumn returnColumn)

/-- The caller post-check message for pasted data (`handlePastedData`;
the source text of the message is abbreviated here to avoid quoting
issues, which no claim depends on). -/
def pastedEmptyMsg : String :=
  "Pasted data is empty or invalid. Please ensure it is valid CSV format."

/-- The pasted-data entry point (`handlePastedData`): parse the text as
CSV, then reject tables with no headers or no rows; the rejection is
the caller layer, not the parser. -/
def handlePastedData (text : String) : Except String TableData :=
  let data := parseCsv text
  if data.headers.length = 0 ∨ data.rows.length = 0 then Except.error pastedEmptyMsg
  else Except.ok data

/-- A file as the source dispatcher sees it: a name and its text
content (the xlsx branch hands raw bytes to the external library, so
only the routing of that branch is modelled). -/
structure JsFile where
  name : String
  content : String

/-- Where the source dispatcher routed a file. -/
inductive ParseFileResult where
  | csvParsed (t : TableData)
  | excelParsed
  | unsupportedFormat (msg : String)
deriving DecidableEq

/-- The JS String endsWith test. -/
def jsEndsWith (s suffix : String) : Bool :=
  List.isSuffixOf suffix.data s.data

/-- The JS String toLowerCase call (ASCII-relevant part, which covers
every extension the dispatcher tests). -/
def jsToLower (s : String) : String :=
  String.mk (s.data.map Char.toLower)

/-- The unsupported-extension message of `parseFile`. -/
def unsupportedFormatMsg : String :=
  "Unsupported file format. Please upload a CSV (.csv) or Excel (.xlsx, .xls) file."

/-- The source dispatcher (`parseFile`): lower-case the file name, then
route strictly by extension; the csv branch reads the text and parses
it, the xlsx and xls branch goes to the spreadsheet normalizer, and
every other extension fails without touching the content. -/
def parseFile (file : JsFile) : ParseFileResult :=
  let name := jsToLower file.name
  if jsEndsWith name ".csv" then ParseFileResult.csvParsed (parseCsv file.content)
  else if jsEndsWith name ".xlsx" || jsEndsWith name ".xls" then ParseFileResult.excelParsed
  else ParseFileResult.unsupportedFormat unsupportedFormatMsg

/-- Spec-side description of the lookup result for one left row, the
definition the join engine is compared against: among the right rows
whose match-column cell equals the key, the last one in right-table
order wins; its return-column cell is appended, with the sentinel text
when no row matches. -/
def specLookupCell (rightRows : List (List String)) (iM iR : Nat) (key : String) : String :=
  match (rightRows.filter (fun rowB => decide (rowB.getD iM "" = key))).getLast? with
  | some rowB => rowB.getD iR ""
  | none => "N/A"

/-- Spec-side description of the whole merged table once the three
column indices are fixed: left headers plus the return column, and
every left row extended by its lookup result. -/
def joinedWithIndices (tableA tableB : TableData) (iL iM iR : Nat)
    (returnColumn : String) : TableData :=
  ⟨tableA.headers ++ [returnColumn],
   tableA.rows.map (fun rowA =>
     rowA ++ [specLookupCell tableB.rows iM iR (rowA.getD iL "")])⟩

/-- The name occurs at this index and at no earlier one. -/
def firstIdxAt (hs : List String) (x : String) (i : Nat) : Prop :=
  hs.get? i = some x ∧ ∀ j, j < i → hs.get? j ≠ some x

instance (hs : List String) (x : String) (i : Nat) : Decidable (firstIdxAt hs x i) := by
  unfold firstIdxAt
  infer_instance

/-- The raw character last consumed after scanning a character run, or
the inherited previous character when the run is empty. -/
def lastPrev (cs : List Char) (prev : Option Char) : Option Char :=
  match cs.getLast? with
  | some c => some c
  | none => prev

/-- The raw character last consumed after scanning one serialized
field. -/
def fieldPrev (s : String) (prev : Option Char) : Option Char :=
  if s.data.any isSpecialChar then some '"' else lastPrev s.data prev

/-- The raw character last consumed after scanning one serialized
row. -/
def rowLastPrev : List String → Option Char → Option Char
  | [], prev => prev
  | [c], prev => fieldPrev c prev
  | _ :: rest, _ => rowLastPrev rest (some ',')

/-- A serialized line that survives the empty-row filter: at least two
cells, or a single cell with non-blank trimmed content. -/
def OkLine (cells : List String) : Prop :=
  2 ≤ cells.length ∨ ∃ c, cells = [c] ∧ jsTrim c ≠ ""

/-- A previous character on which the row-break rule fires. -/
def GoodPrev (o : Option Char) : Prop :=
  ∃ c, o = some c ∧ c ≠ '\r' ∧ c ≠ '\n'

lemma indexOfAux_of_firstIdxAt {hs : List String} {x : String} {i : Nat}
    (h : firstIdxAt hs x i) : indexOfAux x hs = some i := by
  induction hs generalizing i with
  | nil => exact absurd h.1 (by simp)
  | cons y ys ih =>
    obtain ⟨hget, hmin⟩ := h
    cases i with
    | zero =>
      have hy : y = x := by simpa using hget
      simp [indexOfAux, hy]
    | succ i =>
      have hy : y ≠ x := by
        intro hyx
        exact hmin 0 (Nat.succ_pos _) (by simp [hyx])
      have hrec : firstIdxAt ys x i := by
        refine ⟨by simpa using hget, fun j hj => ?_⟩
        have := hmin (j + 1) (Nat.succ_lt_succ hj)
        simpa using this
      simp [indexOfAux, hy, ih hrec]

lemma jsIndexOf_of_firstIdxAt {hs : List String} {x : String} {i : Nat}
    (h : firstIdxAt hs x i) : jsIndexOf hs x = (i : Int) := by
  simp [jsIndexOf, indexOfAux_of_firstIdxAt h]

lemma lt_length_of_firstIdxAt {hs : List String} {x : String} {i : Nat}
    (h : firstIdxAt hs x i) : i < hs.length :=
  (List.get?_eq_some.mp h.1).1

lemma jsAt_natCast (row : List String) (i : Nat) : jsAt row (i : Int) = row.get? i := by
  simp [jsAt]

lemma jsString_jsAt_of_lt (row : List String) (i : Nat) (h : i < row.length) :
    jsString (jsAt row (i : Int)) = row.getD i "" := by
  rw [jsAt_natCast]
  rcases hx : row.get? i with _ | c
  · exact absurd (List.get?_eq_none.mp hx) (Nat.not_le.mpr h)
  · rw [List.getD_eq_getElem?_getD, ← List.get?_eq_getElem?, hx]
    rfl

lemma mapGet_cons (a : String × List String) (m : List (String × List String))
    (k : String) :
    mapGet (a :: m) k = if a.1 = k then some a.2 else mapGet m k := by
  by_cases h : a.1 = k
  · rw [if_pos h]
    unfold mapGet
    rw [List.find?_cons_of_pos _ (by simpa using h)]
    rfl
  · rw [if_neg h]
    unfold mapGet
    rw [List.find?_cons_of_neg _ (by simpa using h)]

lemma mapGet_map_ne {k k' : String} {v : List String} (hne : k' ≠ k) :
    ∀ m : List (String × List String),
      mapGet (m.map (fun p => if p.1 = k then (k, v) else p)) k' = mapGet m k' := by
  intro m
  induction m with
  | nil => rfl
  | cons a m ih =>
    by_cases ha : a.1 = k
    · have h1 : ¬(k = k') := fun h => hne h.symm
      have h2 : ¬(a.1 = k') := by rw [ha]; exact h1
      simp [mapGet_cons, ha, h1, h2, ih]
    · by_cases ha' : a.1 = k'
      · simp [mapGet_cons, ha, ha', hne]
      · simp [mapGet_cons, ha, ha', hne, ih]

lemma mapGet_map_self {k : String} {v : List String} :
    ∀ m : List (String × List String), m.any (fun p => p.1 = k) = true →
      mapGet (m.map (fun p => if p.1 = k then (k, v) else p)) k = some v := by
  intro m
  induction m with
  | nil => intro h; simp at h
  | cons a m ih =>
    intro hany
    by_cases ha : a.1 = k
    · simp [mapGet_cons, ha]
    · have hm : m.any (fun p => p.1 = k) = true := by
        simpa [List.any_cons, ha] using hany
      simp [mapGet_cons, ha, ih hm]

lemma mapGet_append_single {k k' : String} {v : List String} :
    ∀ m : List (String × List String), m.any (fun p => p.1 = k) = false →
      mapGet (m ++ [(k, v)]) k' = if k' = k then some v else mapGet m k' := by
  intro m
  induction m with
  | nil =>
    intro _
    by_cases h : k' = k
    · rw [if_pos h, List.nil_append, mapGet_cons, if_pos h.symm]
    · have h' : ¬(k = k') := fun hh => h hh.symm
      rw [if_neg h, List.nil_append, mapGet_cons, if_neg h']
  | cons a m ih =>
    intro hany
    have ha : ¬(a.1 = k) := by
      intro h
      simp [List.any_cons, h] at hany
    have hany' : m.any (fun p => p.1 = k) = false := by
      simpa [List.any_cons, ha] using hany
    rw [List.cons_append, mapGet_cons, mapGet_cons, ih hany']
    by_cases ha' : a.1 = k'
    · have hk : ¬(k' = k) := fun h => ha (ha'.trans h)
      rw [if_pos ha', if_pos ha', if_neg hk]
    · rw [if_neg ha', if_neg ha']

lemma mapGet_mapSet (m : List (String × List String)) (k k' : String)
    (v : List String) :
    mapGet (mapSet m k v) k' = if k' = k then some v else mapGet m k' := by
  unfold mapSet
  rcases hany : m.any (fun p => p.1 = k) with _ | _
  · rw [if_neg (by simp [hany])]
    exact mapGet_append_single m hany
  · rw [if_pos (by simp [hany])]
    by_cases h : k' = k
    · subst h
      rw [if_pos rfl]
      exact mapGet_map_self m hany
    · rw [if_neg h]
      exact mapGet_map_ne h m

lemma mapGet_foldl (iM : Int) (k : String) (rows : List (List String)) :
    ∀ m, mapGet (rows.foldl (fun acc row => mapSet acc (jsString (jsAt row iM)) row) m) k =
      ((rows.filter (fun row => decide (jsString (jsAt row iM) = k))).getLast?).elim
        (mapGet m k) some := by
  induction rows with
  | nil => intro m; simp
  | cons row rows ih =>
    intro m
    rw [List.foldl_cons, ih, List.filter_cons, mapGet_mapSet]
    by_cases hkey : jsString (jsAt row iM) = k
    · rw [hkey]
      rcases hl : (rows.filter (fun row => decide (jsString (jsAt row iM) = k))).getLast?
        with _ | w
      · have hnil := List.getLast?_eq_none_iff.mp hl
        rw [hnil]
        simp
      · have hne : rows.filter (fun row => decide (jsString (jsAt row iM) = k)) ≠ [] := by
          intro hh
          rw [hh] at hl
          simp at hl
        rcases List.exists_cons_of_ne_nil hne with ⟨b, bs, hbs⟩
        rw [hbs] at hl ⊢
        simp [hl]
    · have h1 : ¬(decide (jsString (jsAt row iM) = k) = true) := by simpa using hkey
      have h2 : ¬(k = jsString (jsAt row iM)) := fun h => hkey h.symm
      rw [if_neg h2, if_neg h1]

lemma mapGet_buildLookupMap (iM : Int) (k : String) (rows : List (List String)) :
    mapGet (buildLookupMap rows iM) k =
      (rows.filter (fun row => decide (jsString (jsAt row iM) = k))).getLast? := by
  unfold buildLookupMap
  rw [mapGet_foldl]
  rcases (rows.filter (fun row => decide (jsString (jsAt row iM) = k))).getLast? with _ | v
  · rfl
  · rfl

/-- The central characterization of the join computation: once each of
the three column names is resolved to its first index and both tables
are rectangular, the engine output is exactly the spec-side merged
table at those indices. -/
lemma vlookupJoin_eq_joinedWithIndices (A B : TableData) (l m r : String)
    (iL iM iR : Nat) (hL : firstIdxAt A.headers l iL) (hM : firstIdxAt B.headers m iM)
    (hR : firstIdxAt B.headers r iR) (hA : Rect A) (hB : Rect B) :
    vlookupJoin A B l m r = joinedWithIndices A B iL iM iR r := by
  unfold vlookupJoin joinedWithIndices
  simp only [jsIndexOf_of_firstIdxAt hL, jsIndexOf_of_firstIdxAt hM,
    jsIndexOf_of_firstIdxAt hR]
  refine congrArg (TableData.mk _) ?_
  refine List.map_congr_left (fun rowA hrowA => ?_)
  have hlenA : rowA.length = A.headers.length := hA rowA hrowA
  have hiL : iL < rowA.length := hlenA ▸ lt_length_of_firstIdxAt hL
  rw [jsString_jsAt_of_lt rowA iL hiL, mapGet_buildLookupMap]
  have hfilter :
      B.rows.filter (fun row => decide (jsString (jsAt row (iM : Int)) = rowA.getD iL "")) =
      B.rows.filter (fun row => decide (row.getD iM "" = rowA.getD iL "")) := by
    refine List.filter_congr (fun rowB hrowB => ?_)
    have hiM : iM < rowB.length := (hB rowB hrowB) ▸ lt_length_of_firstIdxAt hM
    rw [jsString_jsAt_of_lt rowB iM hiM]
  rw [hfilter]
  unfold specLookupCell
  rcases hlast : (B.rows.filter (fun row => decide (row.getD iM "" = rowA.getD iL ""))).getLast?
    with _ | rowB
  · rw [hlast]
  · rw [hlast]
    have hmem : rowB ∈ B.rows :=
      (List.mem_filter.mp (List.mem_of_getLast?_eq_some hlast)).1
    have hiR : iR < rowB.length := (hB rowB hmem) ▸ lt_length_of_firstIdxAt hR
    simp [jsString_jsAt_of_lt rowB iR hiR]

lemma sanitizeRowCsv_length (headers row : List String) :
    (sanitizeRowCsv headers row).length = headers.length := by
  unfold sanitizeRowCsv
  by_cases h : row.length > headers.length
  · rw [if_pos h]
    simp only [List.length_take]
    omega
  · rw [if_neg h]
    simp only [List.length_append, List.length_replicate]
    omega

lemma rect_mk_sanitized (headers : List String) (dataRows : List (List String)) :
    Rect ⟨headers, dataRows.map (sanitizeRowCsv headers)⟩ := by
  intro row hrow
  rcases List.mem_map.mp hrow with ⟨r0, _, rfl⟩
  exact sanitizeRowCsv_length headers r0

lemma parseCsv_rect (s : String) : Rect (parseCsv s) := by
  simp only [parseCsv]
  split
  · intro row hrow
    exact absurd hrow (List.not_mem_nil row)
  · exact rect_mk_sanitized _ _

lemma sanitizeRowExcel_length (headers row : List String) :
    (sanitizeRowExcel headers row).length = headers.length := by
  simp [sanitizeRowExcel]

lemma parseExcelRows_rect (sheetRows : List (List String)) : Rect (parseExcelRows sheetRows) := by
  simp only [parseExcelRows]
  split
  · intro row hrow
    exact absurd hrow (List.not_mem_nil row)
  · intro row hrow
    rcases List.mem_map.mp hrow with ⟨r0, _, rfl⟩
    exact sanitizeRowExcel_length _ r0

lemma vlookupJoin_rect (A B : TableData) (l m r : String) (hA : Rect A) :
    Rect (vlookupJoin A B l m r) := by
  intro row hrow
  simp only [vlookupJoin] at hrow ⊢
  rcases List.mem_map.mp hrow with ⟨rowA, hmem, rfl⟩
  simp [hA rowA hmem]

/-- Claim C4: every table produced by the CSV parser or by the
spreadsheet normalizer is rectangular (each row exactly as wide as the
headers), and the join engine output is rectangular whenever its two
input tables are. -/
theorem pipeline_rectangular :
    (∀ s : String, Rect (parseCsv s)) ∧
    (∀ sheetRows : List (List String), Rect (parseExcelRows sheetRows)) ∧
    (∀ A B : TableData, ∀ l m r : String, Rect A → Rect B →
      Rect (vlookupJoin A B l m r)) :=
  ⟨parseCsv_rect, parseExcelRows_rect,
    fun A B l m r hA _ => vlookupJoin_rect A B l m r hA⟩

/-- Witness for C4 at concrete inputs: a ragged CSV text, a ragged
sheet, and a concrete join. -/
theorem pipeline_rectangular_witness :
    Rect (parseCsv "a,b\n1,2,3\n4") ∧
    Rect (parseExcelRows [["h1", "h2"], ["1"], ["1", "2", "3"]]) ∧
    Rect (vlookupJoin ⟨["ID"], [["1"]]⟩ ⟨["ID", "S"], [["1", "x"]]⟩ "ID" "ID" "S") :=
  ⟨pipeline_rectangular.1 "a,b\n1,2,3\n4",
    pipeline_rectangular.2.1 [["h1", "h2"], ["1"], ["1", "2", "3"]],
    pipeline_rectangular.2.2 ⟨["ID"], [["1"]]⟩ ⟨["ID", "S"], [["1", "x"]]⟩ "ID" "ID" "S"
      (by decide) (by decide)⟩

lemma rangeMap_getD (n : Nat) (row : List String) :
    (List.range n).map (fun i => row.getD i "") =
      row.take n ++ List.replicate (n - row.length) "" := by
  induction n with
  | zero => simp
  | succ n ih =>
    rw [List.range_succ, List.map_append, ih]
    by_cases h : n < row.length
    · have h1 : n + 1 - row.length = 0 := by omega
      have h2 : n - row.length = 0 := by omega
      rw [h1, h2]
      simp only [List.replicate_zero, List.append_nil, List.map_cons, List.map_nil]
      rw [List.take_succ]
      congr 1
      rcases hx : row[n]? with _ | c
      · exact absurd (List.getElem?_eq_none_iff.mp hx) (by omega)
      · simp [List.getD_eq_getElem?_getD, hx]
    · have hle : row.length ≤ n := Nat.le_of_not_lt h
      have h1 : n + 1 - row.length = (n - row.length) + 1 := by omega
      rw [h1, List.replicate_succ']
      have htake : row.take (n + 1) = row.take n := by
        rw [List.take_of_length_le hle, List.take_of_length_le (Nat.le_succ_of_le hle)]
      rw [htake]
      simp [List.getElem?_eq_none hle, List.append_assoc]

lemma sanitizeRowCsv_closed_form (headers row : List String) :
    sanitizeRowCsv headers row =
      row.take headers.length ++ List.replicate (headers.length - row.length) "" := by
  unfold sanitizeRowCsv
  by_cases h : row.length > headers.length
  · rw [if_pos h]
    have h0 : headers.length - row.length = 0 := by omega
    rw [h0]
    simp
  · rw [if_neg h]
    have ht : row.take headers.length = row := List.take_of_length_le (by omega)
    rw [ht]

/-- Claim C7: each data row is reconciled to exactly the header width
by truncation or padding; the CSV parser and the spreadsheet
normalizer reconciliations agree cell for cell on string-valued rows,
both equal the truncate-then-pad closed form, and the two spec
examples (two cells against four headers, six cells against four
headers) evaluate as stated. -/
theorem ragged_row_reconciliation (headers row : List String) :
    sanitizeRowCsv headers row = sanitizeRowExcel headers row ∧
    sanitizeRowCsv headers row =
      row.take headers.length ++ List.replicate (headers.length - row.length) "" ∧
    sanitizeRowCsv ["h1", "h2", "h3", "h4"] ["c1", "c2"] = ["c1", "c2", "", ""] ∧
    sanitizeRowCsv ["h1", "h2", "h3", "h4"] ["c1", "c2", "c3", "c4", "c5", "c6"] =
      ["c1", "c2", "c3", "c4"] := by
  refine ⟨?_, sanitizeRowCsv_closed_form headers row, by decide, by decide⟩
  rw [sanitizeRowCsv_closed_form]
  unfold sanitizeRowExcel
  rw [rangeMap_getD]

/-- Claim C1: for tables satisfying the rectangularity invariant of
the data model and a join spec whose three column names occur in the
respective headers (each resolved at its first occurrence index), the
join returns the left headers with the return column appended, one
output row per left row in the same order, each being the left row
with a single trailing cell: the return-column cell of the right row
whose match-column cell equals the left lookup cell by exact string
equality (the last such row, the one the lookup index retains), or the
sentinel text when no right row matches. -/
theorem vlookup_left_join_correct (A B : TableData) (l m r : String)
    (iL iM iR : Nat) (hL : firstIdxAt A.headers l iL) (hM : firstIdxAt B.headers m iM)
    (hR : firstIdxAt B.headers r iR) (hA : Rect A) (hB : Rect B) :
    (vlookupJoin A B l m r).headers = A.headers ++ [r] ∧
    (vlookupJoin A B l m r).rows.length = A.rows.length ∧
    (vlookupJoin A B l m r).rows =
      A.rows.map (fun rowA =>
        rowA ++ [specLookupCell B.rows iM iR (rowA.getD iL "")]) := by
  rw [vlookupJoin_eq_joinedWithIndices A B l m r iL iM iR hL hM hR hA hB]
  refine ⟨rfl, ?_, rfl⟩
  simp [joinedWithIndices]

/-- Witness for C1 at the join example of the specification. -/
theorem vlookup_left_join_correct_witness :
    (vlookupJoin ⟨["ID", "Name"], [["1", "A"], ["2", "B"], ["3", "C"]]⟩
        ⟨["ID", "Score"], [["2", "90"], ["1", "80"]]⟩ "ID" "ID" "Score").headers =
      ["ID", "Name", "Score"] ∧
    (vlookupJoin ⟨["ID", "Name"], [["1", "A"], ["2", "B"], ["3", "C"]]⟩
        ⟨["ID", "Score"], [["2", "90"], ["1", "80"]]⟩ "ID" "ID" "Score").rows =
      [["1", "A", "80"], ["2", "B", "90"], ["3", "C", "N/A"]] := by
  have h := vlookup_left_join_correct
    ⟨["ID", "Name"], [["1", "A"], ["2", "B"], ["3", "C"]]⟩
    ⟨["ID", "Score"], [["2", "90"], ["1", "80"]]⟩ "ID" "ID" "Score" 0 0 1
    (by decide) (by decide) (by decide) (by decide) (by decide)
  exact ⟨h.1.trans (by decide), h.2.2.trans (by decide)⟩

/-- Claim C2 counterexample: a join spec whose match column is absent
from the right-table headers does not fail and does produce a merged
table: the engine resolves the absent name to index minus one and
proceeds, so the claimed invalid-column failure does not occur. -/
theorem vlookup_no_validation_counterexample :
    handlePerformVlookup ⟨["ID"], [["1"]]⟩ ⟨["ID", "Score"], [["1", "80"]]⟩
      "ID" "Typo" "Score" = Except.ok ⟨["ID", "Score"], [["1", "N/A"]]⟩ := rfl

/-- Claim C2 amended: the join engine validates only that the three
selected column names are non-empty, never that they occur in the
headers: it fails with the guard message exactly when some name is the
empty string, and otherwise returns a merged table even when a
non-empty name is absent from its table headers. -/
theorem vlookup_guard_only_nonempty (A B : TableData) (l m r : String) :
    (handlePerformVlookup A B l m r = Except.error vlookupGuardMsg ↔
      (l = "" ∨ m = "" ∨ r = "")) ∧
    (handlePerformVlookup A B l m r = Except.ok (vlookupJoin A B l m r) ↔
      ¬(l = "" ∨ m = "" ∨ r = "")) := by
  unfold handlePerformVlookup
  by_cases h : l = "" ∨ m = "" ∨ r = ""
  · simp [h]
  · simp [h]

/-- Witness for the amended C2: with an empty lookup selection the
guard fires; with non-empty names, one of them absent from the right
headers, the engine still succeeds. -/
theorem vlookup_guard_only_nonempty_witness :
    handlePerformVlookup ⟨["a"], [["x"]]⟩ ⟨["b"], [["y"]]⟩ "" "b" "b" =
      Except.error vlookupGuardMsg ∧
    handlePerformVlookup ⟨["a"], [["x"]]⟩ ⟨["b"], [["y"]]⟩ "a" "zz" "b" =
      Except.ok (vlookupJoin ⟨["a"], [["x"]]⟩ ⟨["b"], [["y"]]⟩ "a" "zz" "b") :=
  ⟨(vlookup_guard_only_nonempty ⟨["a"], [["x"]]⟩ ⟨["b"], [["y"]]⟩ "" "b" "b").1.mpr
      (Or.inl rfl),
    (vlookup_guard_only_nonempty ⟨["a"], [["x"]]⟩ ⟨["b"], [["y"]]⟩ "a" "zz" "b").2.mpr
      (by decide)⟩

/-- Claim C5: duplicate match keys in the right table: when the right
rows decompose as a prefix, a last matching row, and a suffix in which
the key never recurs, and some prefix row shares the key, every left
row whose lookup value equals that key receives the return-column cell
of that last matching row. -/
theorem vlookup_duplicate_keys_last_wins (A B : TableData) (l m r : String)
    (iL iM iR : Nat) (hL : firstIdxAt A.headers l iL) (hM : firstIdxAt B.headers m iM)
    (hR : firstIdxAt B.headers r iR) (hA : Rect A) (hB : Rect B)
    (pre post : List (List String)) (rbLast : List String)
    (hsplit : B.rows = pre ++ rbLast :: post)
    (hdup : ∃ rb ∈ pre, rb.getD iM "" = rbLast.getD iM "")
    (hpost : ∀ rb ∈ post, rb.getD iM "" ≠ rbLast.getD iM "")
    (k : Nat) (rowA : List String) (hrow : A.rows.get? k = some rowA)
    (hkey : rowA.getD iL "" = rbLast.getD iM "") :
    (vlookupJoin A B l m r).rows.get? k = some (rowA ++ [rbLast.getD iR ""]) := by
  have hcell : specLookupCell B.rows iM iR (rowA.getD iL "") = rbLast.getD iR "" := by
    unfold specLookupCell
    rw [hkey, hsplit, List.filter_append, List.filter_cons, if_pos (by simp)]
    have hpost0 :
        post.filter (fun rowB => decide (rowB.getD iM "" = rbLast.getD iM "")) = [] := by
      rw [List.filter_eq_nil_iff]
      intro rb hrb
      simpa using hpost rb hrb
    rw [hpost0]
    rw [show pre.filter (fun rowB => decide (rowB.getD iM "" = rbLast.getD iM "")) ++
          rbLast :: ([] : List (List String)) =
        pre.filter (fun rowB => decide (rowB.getD iM "" = rbLast.getD iM "")) ++ [rbLast]
        from rfl]
    rw [List.getLast?_concat]
  rw [vlookupJoin_eq_joinedWithIndices A B l m r iL iM iR hL hM hR hA hB]
  show (joinedWithIndices A B iL iM iR r).rows.get? k = _
  simp only [joinedWithIndices]
  rw [List.get?_map, hrow]
  show some (rowA ++ [specLookupCell B.rows iM iR (rowA.getD iL "")]) = _
  rw [hcell]

/-- Witness for C5: a right table with two rows keyed alike; the left
row receives the later value. -/
theorem vlookup_duplicate_keys_last_wins_witness :
    (vlookupJoin ⟨["ID"], [["1"]]⟩ ⟨["ID", "S"], [["1", "old"], ["1", "new"]]⟩
        "ID" "ID" "S").rows.get? 0 = some ["1", "new"] :=
  vlookup_duplicate_keys_last_wins ⟨["ID"], [["1"]]⟩
    ⟨["ID", "S"], [["1", "old"], ["1", "new"]]⟩ "ID" "ID" "S" 0 0 1
    (by decide) (by decide) (by decide) (by decide) (by decide)
    [["1", "old"]] [] ["1", "new"] rfl ⟨["1", "old"], by decide, by decide⟩
    (by intro rb hrb; exact absurd hrb (List.not_mem_nil rb))
    0 ["1"] rfl (by decide)

/-- Claim C6: when a header string occurs more than once in a header
list, the engine resolves that name to its first occurrence for each
of the three roles: with first occurrences at the given indices and a
genuine later duplicate for each name, the merged table is the one
computed at those first indices. -/
theorem vlookup_first_header_occurrence_wins (A B : TableData) (l m r : String)
    (iL iM iR : Nat) (hL : firstIdxAt A.headers l iL) (hM : firstIdxAt B.headers m iM)
    (hR : firstIdxAt B.headers r iR)
    (hdupL : ∃ j, iL < j ∧ A.headers.get? j = some l)
    (hdupM : ∃ j, iM < j ∧ B.headers.get? j = some m)
    (hdupR : ∃ j, iR < j ∧ B.headers.get? j = some r)
    (hA : Rect A) (hB : Rect B) :
    vlookupJoin A B l m r = joinedWithIndices A B iL iM iR r :=
  vlookupJoin_eq_joinedWithIndices A B l m r iL iM iR hL hM hR hA hB

/-- Witness for C6: every header duplicated; the engine output matches
the spec-side table built from the first occurrences. -/
theorem vlookup_first_header_occurrence_wins_witness :
    vlookupJoin ⟨["K", "K"], [["a", "b"]]⟩
        ⟨["K", "V", "K", "V"], [["a", "x", "c", "y"]]⟩ "K" "K" "V" =
      joinedWithIndices ⟨["K", "K"], [["a", "b"]]⟩
        ⟨["K", "V", "K", "V"], [["a", "x", "c", "y"]]⟩ 0 0 1 "V" :=
  vlookup_first_header_occurrence_wins ⟨["K", "K"], [["a", "b"]]⟩
    ⟨["K", "V", "K", "V"], [["a", "x", "c", "y"]]⟩ "K" "K" "V" 0 0 1
    (by decide) (by decide) (by decide)
    ⟨1, by decide⟩ ⟨2, by decide⟩ ⟨3, by decide⟩ (by decide) (by decide)

lemma csvScan_cons_default (c : Char) (rest : List Char) (prev : Option Char)
    (st : CsvState) (hq : st.inQuotedField = false) (h1 : c ≠ '"') (h2 : c ≠ ',')
    (h3 : ¬(c = '\n' ∨ c = '\r')) :
    csvScan (c :: rest) prev st =
      csvScan rest (some c) { st with currentField := st.currentField ++ [c] } := by
  rw [csvScan.eq_def]
  dsimp only
  rw [if_neg (by simp [hq]), if_neg h1, if_neg h2, if_neg h3]

lemma csvScan_cons_comma (rest : List Char) (prev : Option Char) (st : CsvState)
    (hq : st.inQuotedField = false) :
    csvScan (',' :: rest) prev st =
      csvScan rest (some ',')
        { st with currentRow := st.currentRow ++ [String.mk st.currentField],
                  currentField := [] } := by
  rw [csvScan.eq_def]
  dsimp only
  rw [if_neg (by simp [hq]), if_neg (by decide : ¬(',' = '"')), if_pos rfl]

lemma csvScan_cons_quote_open (rest : List Char) (prev : Option Char) (st : CsvState)
    (hq : st.inQuotedField = false) :
    csvScan ('"' :: rest) prev st =
      csvScan rest (some '"') { st with inQuotedField := true } := by
  rw [csvScan.eq_def]
  dsimp only
  rw [if_neg (by simp [hq]), if_pos rfl]

lemma csvScan_cons_newline_flush (c : Char) (rest : List Char) (p : Char)
    (st : CsvState) (hq : st.inQuotedField = false) (hc : c = '\n' ∨ c = '\r')
    (hp : p ≠ '\r' ∧ p ≠ '\n') :
    csvScan (c :: rest) (some p) st =
      csvScan rest (some c)
        { st with rows := st.rows ++ [st.currentRow ++ [String.mk st.currentField]],
                  currentRow := [], currentField := [] } := by
  have h1 : c ≠ '"' := by rcases hc with h | h <;> simp [h]
  have h2 : c ≠ ',' := by rcases hc with h | h <;> simp [h]
  rw [csvScan.eq_def]
  dsimp only
  rw [if_neg (by simp [hq]), if_neg h1, if_neg h2, if_pos hc, if_pos hp]

lemma csvScan_cons_newline_skip (c : Char) (rest : List Char) (prev : Option Char)
    (st : CsvState) (hq : st.inQuotedField = false) (hc : c = '\n' ∨ c = '\r')
    (hskip : prev = none ∨ ∃ p, prev = some p ∧ (p = '\r' ∨ p = '\n')) :
    csvScan (c :: rest) prev st = csvScan rest (some c) st := by
  have h1 : c ≠ '"' := by rcases hc with h | h <;> simp [h]
  have h2 : c ≠ ',' := by rcases hc with h | h <;> simp [h]
  rcases hskip with h | ⟨p, rfl, hp⟩
  · subst h
    rw [csvScan.eq_def]
    dsimp only
    rw [if_neg (by simp [hq]), if_neg h1, if_neg h2, if_pos hc]
  · have hnp : ¬(p ≠ '\r' ∧ p ≠ '\n') := by rcases hp with h | h <;> simp [h]
    rw [csvScan.eq_def]
    dsimp only
    rw [if_neg (by simp [hq]), if_neg h1, if_neg h2, if_pos hc, if_neg hnp]

lemma csvScan_quoted_char (c : Char) (rest : List Char) (prev : Option Char)
    (st : CsvState) (hq : st.inQuotedField = true) (hc : c ≠ '"') :
    csvScan (c :: rest) prev st =
      csvScan rest (some c) { st with currentField := st.currentField ++ [c] } := by
  rw [csvScan.eq_def]
  dsimp only
  rw [if_pos (by simp [hq]), if_neg hc]

lemma csvScan_quoted_esc (rest : List Char) (prev : Option Char) (st : CsvState)
    (hq : st.inQuotedField = true) :
    csvScan ('"' :: '"' :: rest) prev st =
      csvScan rest (some '"') { st with currentField := st.currentField ++ ['"'] } := by
  rw [csvScan.eq_def]
  dsimp only
  rw [if_pos (by simp [hq]), if_pos rfl]
  rfl

lemma csvScan_quoted_close_nil (prev : Option Char) (st : CsvState)
    (hq : st.inQuotedField = true) :
    csvScan ['"'] prev st = { st with inQuotedField := false } := by
  rw [csvScan.eq_def]
  dsimp only
  rw [if_pos (by simp [hq]), if_pos rfl]

lemma csvScan_quoted_close_cons (c2 : Char) (rest2 : List Char) (prev : Option Char)
    (st : CsvState) (hq : st.inQuotedField = true) (hc2 : c2 ≠ '"') :
    csvScan ('"' :: c2 :: rest2) prev st =
      csvScan (c2 :: rest2) (some '"') { st with inQuotedField := false } := by
  rw [csvScan.eq_def]
  dsimp only
  rw [if_pos (by simp [hq]), if_pos rfl]
  split
  · rename_i rest' heq
    injection heq with ha hb
    exact absurd ha hc2
  · rename_i heq
    exact absurd heq (by simp)
  · rename_i c' rest' heq
    injection heq with ha hb
    rw [ha, hb]

lemma csvScan_ws (cs : List Char) :
    ∀ prev st, (∀ c ∈ cs, isJsWhitespace c = true) →
      st.inQuotedField = false → st.currentRow = [] →
      (∀ c ∈ st.currentField, isJsWhitespace c = true) →
      (csvScan cs prev st).inQuotedField = false ∧
      (csvScan cs prev st).currentRow = [] ∧
      (∀ c ∈ (csvScan cs prev st).currentField, isJsWhitespace c = true) ∧
      ∃ extra, (csvScan cs prev st).rows = st.rows ++ extra ∧
        ∀ row ∈ extra, ∃ f : List Char, row = [String.mk f] ∧
          ∀ c ∈ f, isJsWhitespace c = true := by
  induction cs with
  | nil =>
    intro prev st _ hq hr hf
    refine ⟨hq, hr, hf, [], ?_, by simp⟩
    show st.rows = st.rows ++ []
    simp
  | cons c cs ih =>
    intro prev st hws hq hr hf
    have hc : isJsWhitespace c = true := hws c (List.mem_cons_self c cs)
    have hcs : ∀ x ∈ cs, isJsWhitespace x = true :=
      fun x hx => hws x (List.mem_cons_of_mem c hx)
    have hcq : c ≠ '"' := fun h => absurd (h ▸ hc) (by decide)
    have hcc : c ≠ ',' := fun h => absurd (h ▸ hc) (by decide)
    by_cases hnl : c = '\n' ∨ c = '\r'
    · rcases prev with _ | p
      · rw [csvScan_cons_newline_skip c cs none st hq hnl (Or.inl rfl)]
        exact ih (some c) st hcs hq hr hf
      · by_cases hp : p ≠ '\r' ∧ p ≠ '\n'
        · rw [csvScan_cons_newline_flush c cs p st hq hnl hp]
          obtain ⟨h1, h2, h3, extra, hrows, hextra⟩ :=
            ih (some c)
              { st with rows := st.rows ++ [st.currentRow ++ [String.mk st.currentField]],
                        currentRow := [], currentField := [] }
              hcs hq rfl (by simp)
          refine ⟨h1, h2, h3, (st.currentRow ++ [String.mk st.currentField]) :: extra,
            ?_, ?_⟩
          · rw [hrows]
            simp
          · intro row hrow
            rcases List.mem_cons.mp hrow with h | h
            · subst h
              rw [hr]
              exact ⟨st.currentField, by simp, hf⟩
            · exact hextra row h
        · have hor : p = '\r' ∨ p = '\n' := by
            rcases not_and_or.mp hp with h | h
            · exact Or.inl (not_not.mp h)
            · exact Or.inr (not_not.mp h)
          rw [csvScan_cons_newline_skip c cs (some p) st hq hnl (Or.inr ⟨p, rfl, hor⟩)]
          exact ih (some c) st hcs hq hr hf
    · rw [csvScan_cons_default c cs prev st hq hcq hcc hnl]
      refine ih (some c) { st with currentField := st.currentField ++ [c] } hcs hq hr ?_
      intro x hx
      rcases List.mem_append.mp hx with h | h
      · exact hf x h
      · rw [List.mem_singleton.mp h]
        exact hc

lemma jsTrim_eq_empty_of_ws {f : List Char} (h : ∀ c ∈ f, isJsWhitespace c = true) :
    jsTrim (String.mk f) = "" := by
  unfold jsTrim
  have h1 : f.dropWhile isJsWhitespace = [] := List.dropWhile_eq_nil_iff.mpr h
  show String.mk (((String.mk f).data.dropWhile isJsWhitespace).reverse.dropWhile
    isJsWhitespace).reverse = ""
  rw [show (String.mk f).data = f from rfl, h1]
  rfl

lemma keepRow_ws_false {f : List Char} (h : ∀ c ∈ f, isJsWhitespace c = true) :
    keepRow [String.mk f] = false := by
  simp [keepRow, jsTrim_eq_empty_of_ws h]

lemma scanRows_ws (s : String) (hws : ∀ c ∈ s.data, isJsWhitespace c = true) :
    ∀ row ∈ scanRows s, ∃ f : List Char, row = [String.mk f] ∧
      ∀ c ∈ f, isJsWhitespace c = true := by
  obtain ⟨hq, hr, hf, extra, hrows, hextra⟩ :=
    csvScan_ws s.data none ⟨[], [], [], false⟩ hws rfl rfl (by simp)
  intro row hrow
  simp only [scanRows] at hrow
  by_cases hcond : (csvScan s.data none ⟨[], [], [], false⟩).currentField ≠ [] ∨
      (csvScan s.data none ⟨[], [], [], false⟩).currentRow.length > 0
  · rw [if_pos hcond] at hrow
    rcases List.mem_append.mp hrow with h | h
    · refine hextra row ?_
      have := hrows ▸ h
      simpa using this
    · rw [hr] at h
      rw [List.mem_singleton.mp h]
      exact ⟨_, by simp, hf⟩
  · rw [if_neg hcond] at hrow
    refine hextra row ?_
    have := hrows ▸ hrow
    simpa using this

lemma parseCsv_ws (s : String) (hws : ∀ c ∈ s.data, isJsWhitespace c = true) :
    parseCsv s = ⟨[], []⟩ := by
  have hfil : (scanRows s).filter keepRow = [] := by
    rw [List.filter_eq_nil_iff]
    intro row hrow
    obtain ⟨f, rfl, hfws⟩ := scanRows_ws s hws row hrow
    simp [keepRow_ws_false hfws]
  unfold parseCsv
  rw [hfil]

/-- Claim C9: the empty string and every whitespace-only string parse
to the empty table without any failure (the parser is total); the
empty-or-invalid rejection is the post-check of the pasted-data
caller, which errors on the empty table the parser returned. -/
theorem parse_empty_and_whitespace (s : String) :
    parseCsv "" = ⟨[], []⟩ ∧
    ((∀ c ∈ s.data, isJsWhitespace c = true) → parseCsv s = ⟨[], []⟩) ∧
    ((∀ c ∈ s.data, isJsWhitespace c = true) →
      handlePastedData s = Except.error pastedEmptyMsg) := by
  refine ⟨by decide, fun h => parseCsv_ws s h, fun h => ?_⟩
  unfold handlePastedData
  rw [parseCsv_ws s h]
  rfl

/-- Witness for C9 at a concrete whitespace-only input containing a
space, a tab, line breaks, and a no-break space. -/
theorem parse_empty_and_whitespace_witness :
    parseCsv " \t\r\n   " = ⟨[], []⟩ ∧
    handlePastedData " \t\r\n   " = Except.error pastedEmptyMsg :=
  ⟨(parse_empty_and_whitespace " \t\r\n   ").2.1 (by decide),
    (parse_empty_and_whitespace " \t\r\n   ").2.2 (by decide)⟩

lemma stringMk_data (s : String) : String.mk s.data = s := rfl

lemma doubleQuotes_append (a b : List Char) :
    doubleQuotes (a ++ b) = doubleQuotes a ++ doubleQuotes b := by
  induction a with
  | nil => rfl
  | cons c a ih => by_cases h : c = '"' <;> simp [doubleQuotes, h, ih]

lemma doubleQuotes_no_quote {a : List Char} (h : ∀ c ∈ a, c ≠ '"') :
    doubleQuotes a = a := by
  induction a with
  | nil => rfl
  | cons c a ih =>
    have hc := h c (List.mem_cons_self c a)
    simp [doubleQuotes, hc, ih (fun x hx => h x (List.mem_cons_of_mem c hx))]

lemma csvScan_quoted_section (s : List Char) :
    ∀ (k : List Char) (prev : Option Char) (rs : List (List String))
      (cr : List String) (f : List Char), k.head? ≠ some '"' →
      csvScan (doubleQuotes s ++ '"' :: k) prev ⟨rs, cr, f, true⟩ =
        csvScan k (some '"') ⟨rs, cr, f ++ s, false⟩ := by
  induction s with
  | nil =>
    intro k prev rs cr f hk
    show csvScan ('"' :: k) prev ⟨rs, cr, f, true⟩ = _
    cases k with
    | nil =>
      rw [csvScan_quoted_close_nil _ _ rfl, csvScan.eq_def]
      simp
    | cons c2 k2 =>
      have hc2 : c2 ≠ '"' := by
        intro h
        exact hk (by simp [h])
      rw [csvScan_quoted_close_cons c2 k2 _ _ rfl hc2]
      simp
  | cons c s ih =>
    intro k prev rs cr f hk
    by_cases hc : c = '"'
    · subst hc
      show csvScan ('"' :: '"' :: (doubleQuotes s ++ '"' :: k)) prev ⟨rs, cr, f, true⟩ = _
      rw [csvScan_quoted_esc _ _ _ rfl, ih k (some '"') rs cr (f ++ ['"']) hk]
      simp
    · rw [show doubleQuotes (c :: s) = c :: doubleQuotes s from by simp [doubleQuotes, hc],
        List.cons_append]
      rw [csvScan_quoted_char c _ _ _ rfl hc, ih k (some c) rs cr (f ++ [c]) hk]
      simp

lemma mem_dropWhile_of_not {p : Char → Bool} {c : Char} :
    ∀ l : List Char, c ∈ l → p c = false → c ∈ l.dropWhile p := by
  intro l
  induction l with
  | nil => intro h; cases h
  | cons a l ih =>
    intro hm hp
    by_cases ha : p a = true
    · rw [List.dropWhile_cons_of_pos ha]
      rcases List.mem_cons.mp hm with h | h
      · rw [h] at hp
        rw [hp] at ha
        cases ha
      · exact ih h hp
    · rw [List.dropWhile_cons_of_neg ha]
      exact hm

lemma jsTrim_ne_empty_of_mem {f : List Char} {c : Char} (hc : c ∈ f)
    (hw : isJsWhitespace c = false) : jsTrim (String.mk f) ≠ "" := by
  unfold jsTrim
  intro hemp
  have hl : ((((String.mk f).data.dropWhile isJsWhitespace).reverse.dropWhile
      isJsWhitespace).reverse) = [] := congrArg String.data hemp
  have h1 : c ∈ (String.mk f).data.dropWhile isJsWhitespace :=
    mem_dropWhile_of_not _ hc hw
  have h2 : c ∈ ((String.mk f).data.dropWhile isJsWhitespace).reverse :=
    List.mem_reverse.mpr h1
  have h3 := mem_dropWhile_of_not _ h2 hw
  rw [List.reverse_eq_nil_iff.mp hl] at h3
  cases h3

lemma keepRow_singleton_true {f : List Char} (h : jsTrim (String.mk f) ≠ "") :
    keepRow [String.mk f] = true := by
  simp [keepRow, h]

/-- Claim C8: inside a quoted field two consecutive quotes parse as one
literal quote in the cell value and a lone quote closes the field: for
arbitrary quote-free segments, the quoted field made of the three
segments with two escaped quote pairs parses to the single cell value
holding the segments joined by single quotes (the spec example is the
witness below). -/
theorem escaped_quote_in_quoted_field (s1 s2 s3 : String)
    (h1 : ∀ c ∈ s1.data, c ≠ '"') (h2 : ∀ c ∈ s2.data, c ≠ '"')
    (h3 : ∀ c ∈ s3.data, c ≠ '"') :
    parseCsv ("h\n\"" ++ s1 ++ "\"\"" ++ s2 ++ "\"\"" ++ s3 ++ "\"") =
      ⟨["h"], [[s1 ++ "\"" ++ s2 ++ "\"" ++ s3]]⟩ := by
  have hdq : doubleQuotes (s1.data ++ '"' :: (s2.data ++ '"' :: s3.data)) =
      s1.data ++ '"' :: '"' :: (s2.data ++ '"' :: '"' :: s3.data) := by
    rw [doubleQuotes_append, doubleQuotes_no_quote h1]
    rw [show doubleQuotes ('"' :: (s2.data ++ '"' :: s3.data)) =
        '"' :: '"' :: doubleQuotes (s2.data ++ '"' :: s3.data) from by simp [doubleQuotes]]
    rw [doubleQuotes_append, doubleQuotes_no_quote h2]
    rw [show doubleQuotes ('"' :: s3.data) = '"' :: '"' :: doubleQuotes s3.data from by
      simp [doubleQuotes]]
    rw [doubleQuotes_no_quote h3]
  have hdata : ("h\n\"" ++ s1 ++ "\"\"" ++ s2 ++ "\"\"" ++ s3 ++ "\"").data =
      'h' :: '\n' :: '"' ::
        (doubleQuotes (s1.data ++ '"' :: (s2.data ++ '"' :: s3.data)) ++ '"' :: []) := by
    rw [hdq]
    show (((((['h', '\n', '"'] ++ s1.data) ++ ['"', '"']) ++ s2.data) ++ ['"', '"']) ++
        s3.data) ++ ['"'] = _
    simp [List.append_assoc]
  have key : csvScan ("h\n\"" ++ s1 ++ "\"\"" ++ s2 ++ "\"\"" ++ s3 ++ "\"").data none
      ⟨[], [], [], false⟩ =
      ⟨[["h"]], [], s1.data ++ '"' :: (s2.data ++ '"' :: s3.data), false⟩ := by
    rw [hdata]
    rw [csvScan_cons_default 'h' _ none _ rfl (by decide) (by decide) (by decide)]
    rw [csvScan_cons_newline_flush '\n' _ 'h' _ rfl (Or.inl rfl) (by decide)]
    rw [csvScan_cons_quote_open _ _ _ rfl]
    rw [csvScan_quoted_section (s1.data ++ '"' :: (s2.data ++ '"' :: s3.data)) []
      (some '"') _ _ _ (by simp)]
    rw [csvScan.eq_def]
    simp
  have hS_ne : s1.data ++ '"' :: (s2.data ++ '"' :: s3.data) ≠ [] := by simp
  have hrows : scanRows ("h\n\"" ++ s1 ++ "\"\"" ++ s2 ++ "\"\"" ++ s3 ++ "\"") =
      [["h"], [String.mk (s1.data ++ '"' :: (s2.data ++ '"' :: s3.data))]] := by
    unfold scanRows
    rw [key]
    rw [if_pos (Or.inl hS_ne)]
    rfl
  have hkeep : keepRow [String.mk (s1.data ++ '"' :: (s2.data ++ '"' :: s3.data))] = true := by
    refine keepRow_singleton_true (jsTrim_ne_empty_of_mem (c := '"') ?_ (by decide))
    simp
  have hmkS : String.mk (s1.data ++ '"' :: (s2.data ++ '"' :: s3.data)) =
      s1 ++ "\"" ++ s2 ++ "\"" ++ s3 := by
    rw [show s1 ++ "\"" ++ s2 ++ "\"" ++ s3 =
      String.mk ((s1 ++ "\"" ++ s2 ++ "\"" ++ s3).data) from (stringMk_data _).symm]
    refine congrArg String.mk ?_
    show _ = (((s1.data ++ ['"']) ++ s2.data) ++ ['"']) ++ s3.data
    simp [List.append_assoc]
  have hfil : List.filter keepRow
      [["h"], [String.mk (s1.data ++ '"' :: (s2.data ++ '"' :: s3.data))]] =
      [["h"], [String.mk (s1.data ++ '"' :: (s2.data ++ '"' :: s3.data))]] := by
    rw [List.filter_cons, if_pos (by decide : keepRow ["h"] = true),
      List.filter_cons, if_pos hkeep, List.filter_nil]
  unfold parseCsv
  rw [hrows, hfil, hmkS]
  simp [sanitizeRowCsv]

/-- Witness for C8 at the spec example: the quoted field text with the
doubled quotes around the inner word parses to the single cell value
with plain quotes. -/
theorem escaped_quote_in_quoted_field_witness :
    parseCsv ("h\n\"" ++ "He said " ++ "\"\"" ++ "hi" ++ "\"\"" ++ "" ++ "\"") =
      ⟨["h"], [["He said " ++ "\"" ++ "hi" ++ "\"" ++ ""]]⟩ :=
  escaped_quote_in_quoted_field "He said " "hi" ""
    (by decide) (by decide) (by decide)

/-- Claim C10: the source dispatcher lower-cases the file name and
routes strictly by extension: a csv suffix goes to the CSV parser on
the text content, an xlsx or xls suffix to the spreadsheet normalizer,
and any other name fails with the unsupported-format message for every
content identically (no content is consulted); the lower-casing makes
matching case-insensitive, witnessed by the upper-case concrete
conjuncts. -/
theorem dispatch_by_extension (name content : String) :
    (jsEndsWith (jsToLower name) ".csv" = true →
      parseFile ⟨name, content⟩ = ParseFileResult.csvParsed (parseCsv content)) ∧
    (jsEndsWith (jsToLower name) ".csv" = false →
      (jsEndsWith (jsToLower name) ".xlsx" || jsEndsWith (jsToLower name) ".xls") = true →
      parseFile ⟨name, content⟩ = ParseFileResult.excelParsed) ∧
    (jsEndsWith (jsToLower name) ".csv" = false →
      (jsEndsWith (jsToLower name) ".xlsx" || jsEndsWith (jsToLower name) ".xls") = false →
      parseFile ⟨name, content⟩ = ParseFileResult.unsupportedFormat unsupportedFormatMsg) ∧
    parseFile ⟨"DATA.CSV", content⟩ = ParseFileResult.csvParsed (parseCsv content) ∧
    parseFile ⟨"Report.XLSX", content⟩ = ParseFileResult.excelParsed ∧
    parseFile ⟨"legacy.XLS", content⟩ = ParseFileResult.excelParsed ∧
    parseFile ⟨"notes.txt", content⟩ = ParseFileResult.unsupportedFormat unsupportedFormatMsg := by
  refine ⟨fun h => ?_, fun h hx => ?_, fun h hx => ?_, ?_, ?_, ?_, ?_⟩
  · simp only [parseFile]
    rw [if_pos h]
  · simp only [parseFile]
    rw [if_neg (by simp [h]), if_pos hx]
  · simp only [parseFile]
    rw [if_neg (by simp [h]), if_neg (by simp [hx])]
  · simp only [parseFile]
    rw [if_pos (by decide)]
  · simp only [parseFile]
    rw [if_neg (by decide), if_pos (by decide)]
  · simp only [parseFile]
    rw [if_neg (by decide), if_pos (by decide)]
  · simp only [parseFile]
    rw [if_neg (by decide), if_neg (by decide)]

/-- Witness for C10: a mixed-case csv name routes to the CSV parser. -/
theorem dispatch_by_extension_witness :
    parseFile ⟨"Mixed.CsV", "a,b"⟩ = ParseFileResult.csvParsed (parseCsv "a,b") :=
  (dispatch_by_extension "Mixed.CsV" "a,b").1 (by decide)

lemma lastPrev_cons (c : Char) (cs : List Char) (prev : Option Char) :
    lastPrev (c :: cs) prev = lastPrev cs (some c) := by
  unfold lastPrev
  cases cs with
  | nil => simp
  | cons d ds =>
    rw [List.getLast?_cons_cons]
    rcases hx : (d :: ds).getLast? with _ | v
    · exact absurd (List.getLast?_eq_none_iff.mp hx) (by simp)
    · rfl

lemma csvScan_plain_run (cs : List Char) :
    ∀ (k : List Char) (prev : Option Char) (rs : List (List String))
      (cr : List String) (f : List Char), (∀ c ∈ cs, isSpecialChar c = false) →
      csvScan (cs ++ k) prev ⟨rs, cr, f, false⟩ =
        csvScan k (lastPrev cs prev) ⟨rs, cr, f ++ cs, false⟩ := by
  induction cs with
  | nil =>
    intro k prev rs cr f _
    simp [lastPrev]
  | cons c cs ih =>
    intro k prev rs cr f hall
    have hc : isSpecialChar c = false := hall c (List.mem_cons_self c cs)
    have h1 : c ≠ '"' := fun h => absurd (h ▸ hc) (by decide)
    have h2 : c ≠ ',' := fun h => absurd (h ▸ hc) (by decide)
    have h3 : ¬(c = '\n' ∨ c = '\r') := by
      rintro (h | h) <;> exact absurd (h ▸ hc) (by decide)
    rw [List.cons_append, csvScan_cons_default c _ prev _ rfl h1 h2 h3]
    rw [ih k (some c) rs cr (f ++ [c]) (fun x hx => hall x (List.mem_cons_of_mem c hx))]
    rw [lastPrev_cons]
    simp

lemma csvScan_escField (s : String) (k : List Char) (prev : Option Char)
    (rs : List (List String)) (cr : List String) (hk : k.head? ≠ some '"') :
    csvScan ((escapeField s).data ++ k) prev ⟨rs, cr, [], false⟩ =
      csvScan k (fieldPrev s prev) ⟨rs, cr, s.data, false⟩ := by
  unfold escapeField fieldPrev
  by_cases h : s.data.any isSpecialChar = true
  · rw [if_pos h, if_pos h]
    show csvScan ('"' :: ((doubleQuotes s.data ++ ['"']) ++ k)) prev ⟨rs, cr, [], false⟩ = _
    rw [List.append_assoc]
    rw [show ['"'] ++ k = '"' :: k from rfl]
    rw [csvScan_cons_quote_open _ _ _ rfl]
    rw [csvScan_quoted_section s.data k (some '"') rs cr [] hk]
    simp
  · rw [if_neg h, if_neg h]
    have hall : ∀ c ∈ s.data, isSpecialChar c = false := by
      intro c hc
      by_contra hcc
      exact h (List.any_eq_true.mpr ⟨c, hc, by simpa using hcc⟩)
    rw [csvScan_plain_run s.data k prev rs cr [] hall]
    simp

lemma getLastD_ne_nil {α : Type} {l : List α} (h : l ≠ []) (a b : α) :
    l.getLastD a = l.getLastD b := by
  rw [List.getLastD_eq_getLast?, List.getLastD_eq_getLast?]
  rcases hx : l.getLast? with _ | v
  · exact absurd (List.getLast?_eq_none_iff.mp hx) h
  · rfl

lemma dropLast_append_getLastD {α : Type} {l : List α} (h : l ≠ []) (a : α) :
    l.dropLast ++ [l.getLastD a] = l := by
  rw [List.getLastD_eq_getLast?]
  rcases hx : l.getLast? with _ | v
  · exact absurd (List.getLast?_eq_none_iff.mp hx) h
  · show l.dropLast ++ [v] = l
    exact List.dropLast_append_getLast? v hx

lemma csvScan_row_run (cs : List String) :
    ∀ (c : String) (k : List Char) (prev : Option Char) (rs : List (List String))
      (cr : List String), k.head? ≠ some '"' →
      csvScan (lineOf (c :: cs) ++ k) prev ⟨rs, cr, [], false⟩ =
        csvScan k (rowLastPrev (c :: cs) prev)
          ⟨rs, cr ++ (c :: cs).dropLast, ((c :: cs).getLastD "").data, false⟩ := by
  induction cs with
  | nil =>
    intro c k prev rs cr hk
    show csvScan ((escapeField c).data ++ k) prev ⟨rs, cr, [], false⟩ = _
    rw [csvScan_escField c k prev rs cr hk]
    rw [show rowLastPrev [c] prev = fieldPrev c prev from rfl]
    simp
  | cons c2 cs ih =>
    intro c k prev rs cr hk
    have hline : lineOf (c :: c2 :: cs) ++ k =
        (escapeField c).data ++ (',' :: (lineOf (c2 :: cs) ++ k)) := by
      show ((escapeField c).data ++ (',' :: lineOf (c2 :: cs))) ++ k = _
      rw [List.append_assoc]
      rfl
    rw [hline]
    rw [csvScan_escField c _ prev rs cr (by simp)]
    rw [csvScan_cons_comma _ _ _ rfl]
    rw [show String.mk ((⟨rs, cr, String.data c, false⟩ : CsvState).currentField) = c from
      stringMk_data c]
    rw [ih c2 k (some ',') rs (cr ++ [c]) hk]
    have hlp : rowLastPrev (c :: c2 :: cs) prev = rowLastPrev (c2 :: cs) (some ',') := rfl
    have hdl : (c :: c2 :: cs).dropLast = c :: (c2 :: cs).dropLast := rfl
    have hld : (c :: c2 :: cs).getLastD "" = (c2 :: cs).getLastD "" := by
      rw [List.getLastD_cons]
      exact getLastD_ne_nil (by simp) c ""
    rw [hlp, hdl, hld]
    simp

lemma lastPrev_good_of_mem {cs : List Char} (h : cs ≠ [])
    (hall : ∀ c ∈ cs, isSpecialChar c = false) (prev : Option Char) :
    GoodPrev (lastPrev cs prev) := by
  unfold lastPrev
  rcases hx : cs.getLast? with _ | c
  · exact absurd (List.getLast?_eq_none_iff.mp hx) h
  · have hc : c ∈ cs := List.mem_of_getLast?_eq_some hx
    have hns := hall c hc
    refine ⟨c, rfl, ?_, ?_⟩
    · intro hcc
      rw [hcc] at hns
      exact absurd hns (by decide)
    · intro hcc
      rw [hcc] at hns
      exact absurd hns (by decide)

lemma fieldPrev_good {s : String} (prev : Option Char)
    (hgood : GoodPrev prev ∨ s.data ≠ []) : GoodPrev (fieldPrev s prev) := by
  unfold fieldPrev
  by_cases h : s.data.any isSpecialChar = true
  · rw [if_pos h]
    exact ⟨'"', rfl, by decide, by decide⟩
  · rw [if_neg h]
    have hall : ∀ c ∈ s.data, isSpecialChar c = false := by
      intro c hc
      by_contra hcc
      exact h (List.any_eq_true.mpr ⟨c, hc, by simpa using hcc⟩)
    rcases hgood with hg | hne
    · rcases hs : s.data with _ | ⟨a, l⟩
      · unfold lastPrev
        simpa using hg
      · rw [hs] at hall
        exact lastPrev_good_of_mem (by simp) hall prev
    · exact lastPrev_good_of_mem hne hall prev

lemma rowLastPrev_comma_good (cs : List String) :
    ∀ c2 : String, GoodPrev (rowLastPrev (c2 :: cs) (some ',')) := by
  induction cs with
  | nil =>
    intro c2
    exact fieldPrev_good (some ',') (Or.inl ⟨',', rfl, by decide, by decide⟩)
  | cons c3 cs ih =>
    intro c2
    show GoodPrev (rowLastPrev (c3 :: cs) (some ','))
    exact ih c3

lemma rowLastPrev_good (cells : List String) (prev : Option Char) (h : OkLine cells) :
    GoodPrev (rowLastPrev cells prev) := by
  rcases h with h2 | ⟨c, rfl, hc⟩
  · match cells, h2 with
    | c :: c2 :: cs, _ =>
      show GoodPrev (rowLastPrev (c2 :: cs) (some ','))
      exact rowLastPrev_comma_good cs c2
  · have hne : c.data ≠ [] := by
      intro hnil
      apply hc
      have hcs : c = "" := by
        have := congrArg String.mk hnil
        rwa [stringMk_data] at this
      rw [hcs]
      rfl
    show GoodPrev (fieldPrev c prev)
    exact fieldPrev_good prev (Or.inr hne)

lemma okLine_ne_nil {cells : List String} (h : OkLine cells) : cells ≠ [] := by
  rcases h with h2 | ⟨c, rfl, _⟩
  · intro hnil
    rw [hnil] at h2
    simp at h2
  · simp

lemma csvScan_lines (ls : List (List String)) :
    ∀ (l : List String) (prev : Option Char) (rs : List (List String)),
      OkLine l → (∀ x ∈ ls, OkLine x) →
      csvScan (joinWith '\n' ((l :: ls).map lineOf)) prev ⟨rs, [], [], false⟩ =
        ⟨rs ++ (l :: ls).dropLast, ((l :: ls).getLastD []).dropLast,
          (((l :: ls).getLastD []).getLastD "").data, false⟩ := by
  induction ls with
  | nil =>
    intro l prev rs hl _
    rcases l with _ | ⟨c, cs⟩
    · exact absurd rfl (okLine_ne_nil hl)
    · rw [show joinWith '\n' (List.map lineOf [c :: cs]) = lineOf (c :: cs) ++ [] from by
        simp [joinWith]]
      rw [csvScan_row_run cs c [] prev rs [] (by simp)]
      rw [csvScan.eq_def]
      simp
  | cons l2 ls ih =>
    intro l prev rs hl hls
    rcases l with _ | ⟨c, cs⟩
    · exact absurd rfl (okLine_ne_nil hl)
    · have hjoin : joinWith '\n' (((c :: cs) :: l2 :: ls).map lineOf) =
          lineOf (c :: cs) ++ ('\n' :: joinWith '\n' ((l2 :: ls).map lineOf)) := rfl
      rw [hjoin]
      rw [csvScan_row_run cs c _ prev rs [] (by simp)]
      obtain ⟨p, hp, hp1, hp2⟩ := rowLastPrev_good (c :: cs) prev hl
      rw [hp]
      rw [csvScan_cons_newline_flush '\n' _ p _ rfl (Or.inl rfl) ⟨hp1, hp2⟩]
      rw [show String.mk ((⟨rs, [] ++ (c :: cs).dropLast,
          ((c :: cs).getLastD "").data, false⟩ : CsvState).currentField) =
          (c :: cs).getLastD "" from stringMk_data _]
      rw [show (⟨rs, [] ++ (c :: cs).dropLast, ((c :: cs).getLastD "").data,
          false⟩ : CsvState).currentRow ++ [(c :: cs).getLastD ""] =
          ([] ++ (c :: cs).dropLast) ++ [(c :: cs).getLastD ""] from rfl]
      rw [List.nil_append, dropLast_append_getLastD (by simp) ""]
      rw [ih l2 (some '\n') (rs ++ [c :: cs]) (hls l2 (List.mem_cons_self l2 ls))
        (fun x hx => hls x (List.mem_cons_of_mem l2 hx))]
      have hd : ((c :: cs) :: l2 :: ls).dropLast = (c :: cs) :: (l2 :: ls).dropLast := rfl
      have hg1 : ((c :: cs) :: l2 :: ls).getLastD [] = (l2 :: ls).getLastD [] := by
        rw [List.getLastD_cons]
        exact getLastD_ne_nil (by simp) (c :: cs) []
      rw [hd, hg1]
      simp

lemma keepRow_of_okLine {cells : List String} (h : OkLine cells) : keepRow cells = true := by
  rcases h with h2 | ⟨c, rfl, hc⟩
  · simp only [keepRow, Bool.or_eq_true, decide_eq_true_eq]
    left
    omega
  · simp [keepRow, hc]

lemma sanitizeRowCsv_id {headers row : List String} (h : row.length = headers.length) :
    sanitizeRowCsv headers row = row := by
  unfold sanitizeRowCsv
  rw [if_neg (by omega), h]
  simp

/-- Claim C3 counterexample: the single-column table whose one row is
one empty-string cell does not survive the round trip: it serializes
to a header line plus an empty line, and the parser filters the empty
line out, so the row is lost. -/
theorem csv_roundtrip_counterexample :
    parseCsv (generateCsv ⟨["a"], [[""]]⟩) = ⟨["a"], []⟩ ∧
    parseCsv (generateCsv ⟨["a"], [[""]]⟩) ≠ ⟨["a"], [[""]]⟩ := by decide

/-- Claim C3 amended: parsing the serialized form reproduces the table
exactly for every rectangular table with at least two columns, and for
single-column tables provided every header and cell has non-blank
trimmed content; a single-column row whose cell trims to empty is
dropped by the empty-row filter (the counterexample), which is the
only loss. -/
theorem csv_roundtrip (t : TableData) (hrect : Rect t)
    (hcols : 2 ≤ t.headers.length ∨
      (t.headers.length = 1 ∧ (∀ c ∈ t.headers, jsTrim c ≠ "") ∧
        ∀ row ∈ t.rows, ∀ c ∈ row, jsTrim c ≠ "")) :
    parseCsv (generateCsv t) = t := by
  have hokHead : OkLine t.headers := by
    rcases hcols with h2 | ⟨h1, hhead, _⟩
    · exact Or.inl h2
    · rcases List.length_eq_one.mp h1 with ⟨h0, hh⟩
      exact Or.inr ⟨h0, hh, hhead h0 (hh ▸ List.mem_cons_self h0 [])⟩
  have hokRow : ∀ row ∈ t.rows, OkLine row := by
    intro row hrow
    rcases hcols with h2 | ⟨h1, _, hcells⟩
    · exact Or.inl ((hrect row hrow) ▸ h2)
    · have hlen : row.length = 1 := (hrect row hrow).trans h1
      rcases List.length_eq_one.mp hlen with ⟨c, hc⟩
      exact Or.inr ⟨c, hc, hcells row hrow c (hc ▸ List.mem_cons_self c [])⟩
  have hkey := csvScan_lines t.rows t.headers none [] hokHead hokRow
  have hlastMem : (t.headers :: t.rows).getLastD [] ∈ t.headers :: t.rows := by
    rw [List.getLastD_cons]
    exact List.getLastD_mem_cons t.rows t.headers
  have hlastOk : OkLine ((t.headers :: t.rows).getLastD []) := by
    rcases List.mem_cons.mp hlastMem with h | h
    · rw [h]
      exact hokHead
    · exact hokRow _ h
  have hcond : ((((t.headers :: t.rows).getLastD []).getLastD "").data ≠ [] ∨
      (((t.headers :: t.rows).getLastD []).dropLast).length > 0) := by
    rcases hlastOk with h2 | ⟨c, hLc, hc⟩
    · right
      rw [List.length_dropLast]
      omega
    · left
      rw [hLc]
      show c.data ≠ []
      intro hnil
      apply hc
      have hmk := congrArg String.mk hnil
      rw [stringMk_data] at hmk
      rw [hmk]
      rfl
  have hscan : scanRows (generateCsv t) = t.headers :: t.rows := by
    simp only [scanRows]
    rw [show (generateCsv t).data = joinWith '\n' ((t.headers :: t.rows).map lineOf)
      from rfl]
    rw [hkey]
    rw [if_pos hcond]
    rw [show String.mk ((((t.headers :: t.rows).getLastD []).getLastD "").data) =
      ((t.headers :: t.rows).getLastD []).getLastD "" from stringMk_data _]
    rw [dropLast_append_getLastD (okLine_ne_nil hlastOk) ""]
    rw [List.nil_append, dropLast_append_getLastD (by simp) ([] : List String)]
  have hfil : (t.headers :: t.rows).filter keepRow = t.headers :: t.rows :=
    List.filter_eq_self.mpr (fun row hrow => by
      rcases List.mem_cons.mp hrow with h | h
      · rw [h]
        exact keepRow_of_okLine hokHead
      · exact keepRow_of_okLine (hokRow row h))
  unfold parseCsv
  rw [hscan, hfil]
  show TableData.mk t.headers (t.rows.map (sanitizeRowCsv t.headers)) = t
  have hmap : t.rows.map (sanitizeRowCsv t.headers) = t.rows := by
    have hcongr := List.map_congr_left
      (fun row hrow => sanitizeRowCsv_id (hrect row hrow) :
        ∀ row ∈ t.rows, sanitizeRowCsv t.headers row = (fun r => r) row)
    simpa using hcongr
  rw [hmap]

/-- Witness for the amended C3: a two-column table with a comma, an
escaped quote, an embedded line break, and an empty cell survives the
round trip unchanged. -/
theorem csv_roundtrip_witness :
    parseCsv (generateCsv ⟨["a", "b"], [["x,y", "he said \"hi\""], ["", "line\nbreak"]]⟩) =
      ⟨["a", "b"], [["x,y", "he said \"hi\""], ["", "line\nbreak"]]⟩ :=
  csv_roundtrip ⟨["a", "b"], [["x,y", "he said \"hi\""], ["", "line\nbreak"]]⟩
    (by decide) (Or.inl (by decide))

end Vlookup
